import Mathlib

/-!
Verification of the nem-data MMSDM download/cache pipeline (`src/nemdata/mmsdm.py`)
against its natural-language specification.

The embedding below is a shallow model of the Python source:

* machine-level collaborators that live outside `src/` (the HTTP client
  `utils.download_zipfile`, the zip extractor `utils.unzip`, the CSV reader,
  and `utils.add_interval_column`) are represented either as parameters of the
  pipeline functions (a deterministic remote-availability oracle `remote` and a
  deterministic processing function `proc`) or, where the spec describes their
  algorithm, as definitions marked `Modelled from the spec:`;
* the filesystem is an explicit association list from paths (lists of path
  segments) to stored artifacts;
* pandas timestamps are integers (minutes); dataframes are association lists
  from column names to lists of cells.
-/

namespace NemData

/-! ## Decimal rendering of naturals

Embeds Python's `str(int)` / f-string formatting of a non-negative integer as
its decimal digit string, most significant digit first.  Defined with explicit
fuel so that the kernel can evaluate it. -/

/-- Character for one decimal digit (`0 ≤ d ≤ 9`). -/
def digitChar (d : Nat) : Char := Char.ofNat (48 + d)

/-- Decimal digits of `n`, most significant first; `fuel` bounds the recursion
and any `fuel > n` is enough. -/
def natDigitsAux : Nat → Nat → List Char
  | 0, _ => []
  | fuel + 1, n =>
    if n < 10 then [digitChar n]
    else natDigitsAux fuel (n / 10) ++ [digitChar (n % 10)]

/-- Decimal digits of `n`, most significant first. -/
def natDigits (n : Nat) : List Char := natDigitsAux (n + 1) n

/-- Embeds Python's `str(n)` (equivalently `f"{n}"`) for a non-negative `n`. -/
def natStr (n : Nat) : String := ⟨natDigits n⟩

/-- Embeds Python's `str.zfill(w)` for strings without a sign character:
left-pad with `'0'` up to width `w`. -/
def zfill (w : Nat) (s : String) : String :=
  if s.length < w then (⟨List.replicate (w - s.length) '0'⟩ : String) ++ s else s

/-- Embeds `url.replace("#", "%23")` (`mmsdm.py` line 165): since the pattern
is the single character `'#'`, the replacement rewrites each `'#'` to `"%23"`
and leaves every other character unchanged. -/
def encodeHash (s : String) : String :=
  ⟨s.data.foldr (fun c acc => if c = '#' then '%' :: '2' :: '3' :: acc else c :: acc) []⟩

/-! ## Data model (`mmsdm.py` lines 17–123) -/

/-- Embeds the pydantic model `VariableFrequency` (`mmsdm.py` lines 17–20).
The transition instant is a timestamp in minutes. -/
structure VariableFrequency where
  frequency_minutes_before : Int
  frequency_minutes_after : Int
  transition_datetime_interval_end : Int
deriving DecidableEq

/-- The `frequency` field of `MMSDMTable` holds either a fixed number of
minutes or a `VariableFrequency` (`mmsdm.py` line 29). -/
inductive Freq where
  | fixed (minutes : Int)
  | varying (vf : VariableFrequency)
deriving DecidableEq

/-- Embeds the pydantic model `MMSDMTable` (`mmsdm.py` lines 23–30). -/
structure MMSDMTable where
  name : String
  table : String
  directory : String
  datetime_columns : Option (List String) := none
  interval_column : Option String := none
  frequency : Option Freq := none
  legacy_table : Option String := none
deriving DecidableEq

/-- Modelled from the spec: `constants.transition_datetime_interval_end`
(`nemdata/constants.py` is not under `src/`).  The spec fixes no concrete
value ("a known transition instant"), and no claim depends on it, so it is
modelled as an arbitrary fixed instant. -/
def transition_datetime_interval_end : Int := 0

/-- Embeds the static catalog `mmsdm_tables` (`mmsdm.py` lines 33–113). -/
def mmsdm_tables : List MMSDMTable := [
  { name := "dispatch-price", table := "DISPATCHPRICE", directory := "DATA",
    datetime_columns := some ["SETTLEMENTDATE"],
    interval_column := some "SETTLEMENTDATE", frequency := some (Freq.fixed 5) },
  { name := "predispatch", table := "PREDISPATCHPRICE#ALL#FILE01", directory := "PREDISP_ALL_DATA",
    datetime_columns := some ["LASTCHANGED", "DATETIME"],
    interval_column := some "DATETIME", frequency := some (Freq.fixed 30),
    legacy_table := some "PREDISPATCHPRICE" },
  { name := "unit-scada", table := "DISPATCH_UNIT_SCADA", directory := "DATA",
    datetime_columns := some ["LASTCHANGED", "SETTLEMENTDATE"],
    interval_column := some "SETTLEMENTDATE", frequency := some (Freq.fixed 5) },
  { name := "trading-price", table := "TRADINGPRICE", directory := "DATA",
    datetime_columns := some ["SETTLEMENTDATE"],
    interval_column := some "SETTLEMENTDATE",
    frequency := some (Freq.varying
      { frequency_minutes_before := 30,
        frequency_minutes_after := 5,
        transition_datetime_interval_end := transition_datetime_interval_end }) },
  { name := "demand", table := "DISPATCHREGIONSUM", directory := "DATA",
    datetime_columns := some ["LASTCHANGED", "SETTLEMENTDATE"],
    interval_column := some "SETTLEMENTDATE", frequency := some (Freq.fixed 5) },
  { name := "interconnectors", table := "DISPATCHINTERCONNECTORRES", directory := "DATA",
    datetime_columns := some ["LASTCHANGED", "SETTLEMENTDATE"],
    interval_column := some "SETTLEMENTDATE", frequency := some (Freq.fixed 5) },
  { name := "p5min", table := "P5MIN_REGIONSOLUTION_ALL#ALL#FILE01", directory := "P5MIN_ALL_DATA",
    datetime_columns := some ["RUN_DATETIME", "INTERVAL_DATETIME", "LASTCHANGED"],
    interval_column := some "INTERVAL_DATETIME", frequency := some (Freq.fixed 5),
    legacy_table := some "P5MIN_REGIONSOLUTION_ALL" },
  { name := "predispatch-sensitivities", table := "PREDISPATCHPRICESENSITIVITIE_D", directory := "DATA",
    datetime_columns := some ["LASTCHANGED", "DATETIME"],
    interval_column := some "DATETIME", frequency := some (Freq.fixed 30) },
  { name := "predispatch-demand", table := "PREDISPATCHREGIONSUM#ALL#FILE01", directory := "PREDISP_ALL_DATA",
    datetime_columns := some ["LASTCHANGED", "DATETIME"],
    interval_column := some "DATETIME", frequency := some (Freq.fixed 30),
    legacy_table := some "PREDISPATCHREGIONSUM" }]

/-- A filesystem path, as its list of segments (embeds `pathlib.Path`). -/
abbrev FsPath := List String

/-- Embeds the pydantic model `MMSDMFile` (`mmsdm.py` lines 116–123). -/
structure MMSDMFile where
  year : Nat
  month : Nat
  table : MMSDMTable
  url : String
  csv_name : String
  data_directory : FsPath
  zipfile_path : FsPath
deriving DecidableEq

/-- Embeds the `ValueError` raised by `find_mmsdm_table` (`mmsdm.py` lines
131–133) as structured content: the message
`f"MMSDMTable {name} not found - tables available are {...}"` names the
requested key and lists the names of all catalog entries. -/
structure TableNotFoundError where
  requested : String
  available : List String
deriving DecidableEq

/-- First catalog entry whose `name` field equals `name` (the `for` loop of
`find_mmsdm_table`, `mmsdm.py` lines 128–130). -/
def find_from (name : String) : List MMSDMTable → Option MMSDMTable
  | [] => none
  | t :: rest => if t.name = name then some t else find_from name rest

/-- Embeds `find_mmsdm_table` (`mmsdm.py` lines 126–133): return the first
catalog entry with the given `name`, or fail with an error naming the
requested key and listing all valid keys. -/
def find_mmsdm_table (name : String) : Except TableNotFoundError MMSDMTable :=
  match find_from name mmsdm_tables with
  | some t => Except.ok t
  | none => Except.error ⟨name, mmsdm_tables.map (fun t => t.name)⟩

/-- Embeds the Python tuple comparison `(year, month) >= (2024, 8)`
(`mmsdm.py` line 163): lexicographic order on (year, month). -/
def atOrAfterCutover (year month : Nat) : Prop :=
  2024 < year ∨ (year = 2024 ∧ 8 ≤ month)

instance (year month : Nat) : Decidable (atOrAfterCutover year month) := by
  unfold atOrAfterCutover; exact inferInstance

/-- The URL prefix built at `mmsdm.py` line 159. -/
def urlStem (year : Nat) (padded_month : String) : String :=
  "https://www.nemweb.com.au/Data_Archive/Wholesale_Electricity/MMSDM/" ++ natStr year ++
    "/MMSDM_" ++ natStr year ++ "_" ++ padded_month ++ "/MMSDM_Historical_Data_SQLLoader"

/-- Embeds `make_one_mmsdm_file` (`mmsdm.py` lines 153–182).  The
`legacy_table_name` selection embeds the truthiness test
`table.legacy_table if table.legacy_table else table.table` (both `None` and
the empty string are falsy in Python).  The idempotent
`data_directory.mkdir(exist_ok=True, parents=True)` side effect is not part of
the returned value and is not modelled. -/
def make_one_mmsdm_file (year month : Nat) (table : MMSDMTable) (base_directory : FsPath) :
    MMSDMFile :=
  let padded_month := zfill 2 (natStr month)
  let legacy_table_name :=
    match table.legacy_table with
    | some l => if l.isEmpty then table.table else l
    | none => table.table
  let stamp := natStr year ++ padded_month ++ "010000"
  let data_directory := base_directory ++ [table.name, natStr year ++ "-" ++ padded_month]
  if atOrAfterCutover year month then
    { year := year, month := month, table := table,
      url := encodeHash (urlStem year padded_month ++ "/" ++ table.directory ++
        "/PUBLIC_ARCHIVE#" ++ table.table ++ "#" ++ stamp ++ ".zip"),
      csv_name := "PUBLIC_ARCHIVE#" ++ table.table ++ "#" ++ stamp ++ ".CSV",
      data_directory := data_directory,
      zipfile_path := data_directory ++ ["raw.zip"] }
  else
    { year := year, month := month, table := table,
      url := urlStem year padded_month ++ "/" ++ table.directory ++
        "/PUBLIC_DVD_" ++ legacy_table_name ++ "_" ++ stamp ++ ".zip",
      csv_name := "PUBLIC_DVD_" ++ legacy_table_name ++ "_" ++ stamp ++ ".CSV",
      data_directory := data_directory,
      zipfile_path := data_directory ++ ["raw.zip"] }

/-! ## Date ranges (`mmsdm.py` lines 136–150) -/

/-- A calendar date (year, month, day), embedding the date strings parsed by
`pd.date_range`. -/
structure Date where
  y : Nat
  m : Nat
  d : Nat
deriving DecidableEq

/-- Chronological order on dates. -/
def Date.le (a b : Date) : Prop :=
  a.y < b.y ∨ (a.y = b.y ∧ (a.m < b.m ∨ (a.m = b.m ∧ a.d ≤ b.d)))

instance (a b : Date) : Decidable (Date.le a b) := by
  unfold Date.le; exact inferInstance

/-- A date with a month in `[1, 12]` and a day in `[1, 31]`. -/
def ValidDate (a : Date) : Prop := 1 ≤ a.m ∧ a.m ≤ 12 ∧ 1 ≤ a.d ∧ a.d ≤ 31

instance (a : Date) : Decidable (ValidDate a) := by
  unfold ValidDate; exact inferInstance

/-- Linear index of a month: `monthIdx y m = y * 12 + (m - 1)`. -/
def monthIdx (y m : Nat) : Nat := y * 12 + (m - 1)

/-- Inverse of `monthIdx`: the (year, month) pair of a linear month index. -/
def idxYM (i : Nat) : Nat × Nat := (i / 12, i % 12 + 1)

/-- Embeds `pd.date_range(start=start, end=end, freq="MS")` (`mmsdm.py` line
141; pandas is an external collaborator): the (year, month) pairs of all
first-of-month dates `d` with `start ≤ d ≤ end`, in chronological order.  The
first generated month is `start`'s own month when `start` is on (or before)
day 1 and the following month otherwise. -/
def monthStarts (start finish : Date) : List (Nat × Nat) :=
  let a := if start.d ≤ 1 then monthIdx start.y start.m else monthIdx start.y start.m + 1
  let b := monthIdx finish.y finish.m
  (List.range' a (b + 1 - a)).map idxYM

/-- Embeds `make_many_mmsdm_files` (`mmsdm.py` lines 136–150): re-resolve the
table by `table.name` through the catalog (line 140; the `ValueError` of
`find_mmsdm_table` propagates as `Except.error`), then build one `MMSDMFile`
per month start in the inclusive range. -/
def make_many_mmsdm_files (start finish : Date) (table : MMSDMTable)
    (base_directory : FsPath) : Except TableNotFoundError (List MMSDMFile) :=
  match find_mmsdm_table table.name with
  | Except.error e => Except.error e
  | Except.ok t =>
      Except.ok ((monthStarts start finish).map
        (fun p => make_one_mmsdm_file p.1 p.2 t base_directory))

/-! ## Dataframes (`mmsdm.py` lines 185–208)

A dataframe is an association list from column names to columns; a column is
a list of cells.  A cell is either an unparsed string or a timestamp (minutes)
carrying an optional timezone. -/

/-- One dataframe cell. -/
inductive Cell where
  | raw (s : String)
  | dt (t : Int) (tz : Option String)
deriving DecidableEq

/-- A dataframe: association list from column name to column. -/
abbrev DataFrame := List (String × List Cell)

/-- Reading `data[col]`: the first column with the given name, `none` when the
column is absent (pandas raises `KeyError`). -/
def getCol : DataFrame → String → Option (List Cell)
  | [], _ => none
  | (k, v) :: rest, name => if k = name then some v else getCol rest name

/-- Writing `data[col] = v` for an existing column: replace its cells. -/
def setCol (data : DataFrame) (name : String) (v : List Cell) : DataFrame :=
  data.map (fun kv => if kv.1 = name then (name, v) else kv)

/-- Writing `data[col] = v` in general: replace the column when present,
append it otherwise. -/
def upsertCol (data : DataFrame) (name : String) (v : List Cell) : DataFrame :=
  match getCol data name with
  | some _ => setCol data name v
  | none => data ++ [(name, v)]

/-- Modelled from the spec: `constants.nem_tz` (`nemdata/constants.py` is not
under `src/`), the fixed market timezone attached to every datetime column.
No claim depends on its concrete value. -/
def nem_tz : String := "Australia/Brisbane"

/-- Embeds `pd.to_datetime(data[col])` cellwise (pandas is an external
collaborator): an unparsed string becomes a timestamp via the ambient string
parser `parse`; an already-parsed timestamp is unchanged. -/
def toDatetimeCell (parse : String → Int) : Cell → Cell
  | Cell.raw s => Cell.dt (parse s) none
  | Cell.dt t tz => Cell.dt t tz

/-- Embeds `.dt.tz_localize(constants.nem_tz)` cellwise: attach the fixed
market timezone to a timestamp cell. -/
def tzLocalize : Cell → Cell
  | Cell.raw s => Cell.raw s
  | Cell.dt t _ => Cell.dt t (some nem_tz)

/-- The per-cell effect of one loop iteration of `make_datetime_columns`
(`mmsdm.py` lines 204–205): parse to a timestamp, then attach the fixed
market timezone. -/
def normCell (parse : String → Int) (cell : Cell) : Cell :=
  tzLocalize (toDatetimeCell parse cell)

/-- The body of the loop of `make_datetime_columns` (`mmsdm.py` lines
202–207): `data[col] = pd.to_datetime(data[col])` then
`data[col] = data[col].dt.tz_localize(constants.nem_tz)`, with the
`try/except KeyError: pass` skipping absent columns. -/
def normStep (parse : String → Int) (data : DataFrame) (col : String) : DataFrame :=
  match getCol data col with
  | none => data
  | some c => setCol data col (c.map (normCell parse))

/-- Embeds `make_datetime_columns` (`mmsdm.py` lines 196–208).
`assert datetime_columns` fails (modelled as `none`) when the field is `None`
or the empty list, both falsy in Python.  The statement
`datetime_columns += ["interval-start", "interval-end"]` extends **in place**
the very list object held by the passed-in table (Python list aliasing), so
the function returns both the updated dataframe and the table as mutated. -/
def make_datetime_columns (parse : String → Int) (data : DataFrame) (table : MMSDMTable) :
    Option (DataFrame × MMSDMTable) :=
  match table.datetime_columns with
  | none => none
  | some dcs =>
      if dcs.isEmpty then none
      else
        let dcs2 := dcs ++ ["interval-start", "interval-end"]
        some (dcs2.foldl (normStep parse) data,
          { table with datetime_columns := some dcs2 })

/-! ## Interval derivation -/

/-- The frequency, in minutes, applying to a row whose interval-column value
is the instant `t`: a fixed frequency applies everywhere; a variable frequency
uses the "after" granularity at or after the transition instant and the
"before" granularity strictly before it. -/
def freqFor : Freq → Int → Int
  | Freq.fixed n, _ => n
  | Freq.varying vf, t =>
      if vf.transition_datetime_interval_end ≤ t then vf.frequency_minutes_after
      else vf.frequency_minutes_before

/-- The interval-start cell for a row: `start = end - frequency` minutes,
where `end` is the row's interval-column value. -/
def intervalStartCell (fr : Freq) : Cell → Cell
  | Cell.dt t tz => Cell.dt (t - freqFor fr t) tz
  | Cell.raw s => Cell.raw s

/-- Modelled from the spec: `utils.add_interval_column` (`nemdata/utils.py` is
not under `src/`; only its call site at `mmsdm.py` line 275 is).  Spec §4.4
step 7: using `interval_column` and `frequency`, compute the synthetic columns
"interval-start" and "interval-end"; `end` is the value of the interval
column, `start = end - frequency` minutes, where a variable frequency selects
the "after" granularity for rows at or after the transition instant and the
"before" granularity otherwise.  Fails (`none`) when the table has no interval
column or frequency, or the column is absent. -/
def add_interval_column (data : DataFrame) (table : MMSDMTable) : Option DataFrame :=
  match table.interval_column, table.frequency with
  | some ic, some fr =>
      match getCol data ic with
      | none => none
      | some col =>
          some (upsertCol (upsertCol data "interval-start" (col.map (intervalStartCell fr)))
            "interval-end" col)
  | _, _ => none

/-! ## Download pipeline state (`mmsdm.py` lines 211–282)

The filesystem is an association list from paths to persisted artifacts; a
`remote` oracle models `utils.download_zipfile` (deterministic availability
and content of the archive for a (year, month) period); a `proc` function
models the deterministic processing chain `utils.unzip` →
`load_unzipped_mmsdm_file` → `make_datetime_columns` → `add_interval_column`
applied to the downloaded archive.  The `rich` status lines are modelled as a
list of events.  `check_for_additional_files` only emits a warning (all its
network failures are swallowed) and changes no state, so it is not modelled. -/

/-- Status lines printed by the pipeline (`print` calls at `mmsdm.py` lines
256, 259, 266, 270, 278). -/
inductive Ev where
  | cached
  | notCached
  | notAvailable
  | downloading
  | saving
deriving DecidableEq

/-- Lookup in the modelled filesystem. -/
def fsLookup {α : Type} : List (FsPath × α) → FsPath → Option α
  | [], _ => none
  | (q, v) :: rest, p => if p = q then some v else fsLookup rest p

/-- Write (create or overwrite) in the modelled filesystem. -/
def fsInsert {α : Type} (fs : List (FsPath × α)) (p : FsPath) (v : α) : List (FsPath × α) :=
  (p, v) :: fs

/-- The path of the persisted columnar artifact: `data_directory / "clean.parquet"`
(`mmsdm.py` line 254). -/
def cleanPath (f : MMSDMFile) : FsPath := f.data_directory ++ ["clean.parquet"]

/-- The path of the row-oriented text artifact: `data_directory / "clean.csv"`
(`clean_fi.with_suffix(".csv")`, `mmsdm.py` line 279). -/
def cleanCsvPath (f : MMSDMFile) : FsPath := f.data_directory ++ ["clean.csv"]

/-- Embeds `download_one_mmsdm` (`mmsdm.py` lines 251–282) over the modelled
filesystem.  The cache gate is the existence of `clean.parquet`; on a hit the
persisted artifact is returned as-is.  On a miss, the `remote` oracle reports
availability (`utils.download_zipfile`); an unavailable period returns `none`
with no state change; otherwise the processed data is returned and, unless
`dry_run` is set, persisted at `clean.csv` and then `clean.parquet`. -/
def download_one_mmsdm {α : Type} (remote : Nat → Nat → Option α)
    (proc : MMSDMTable → MMSDMFile → α → α) (table : MMSDMTable) (f : MMSDMFile)
    (dry_run : Bool) (fs : List (FsPath × α)) :
    Option α × List (FsPath × α) × List Ev :=
  match fsLookup fs (cleanPath f) with
  | some d => (some d, fs, [Ev.cached])
  | none =>
      match remote f.year f.month with
      | none => (none, fs, [Ev.notCached, Ev.notAvailable])
      | some raw =>
          let d := proc table f raw
          if dry_run then (some d, fs, [Ev.notCached, Ev.downloading])
          else
            (some d, fsInsert (fsInsert fs (cleanCsvPath f) d) (cleanPath f) d,
              [Ev.notCached, Ev.downloading, Ev.saving])

/-- The loop of `download_mmsdm` (`mmsdm.py` lines 222–226): run
`download_one_mmsdm` over each resolved file in order, threading the
filesystem, collecting the non-`None` results and the status lines. -/
def downloadGo {α : Type} (remote : Nat → Nat → Option α)
    (proc : MMSDMTable → MMSDMFile → α → α) (table : MMSDMTable) (dry_run : Bool) :
    List MMSDMFile → List (FsPath × α) → List α × List (FsPath × α) × List Ev
  | [], fs => ([], fs, [])
  | f :: rest, fs =>
      match download_one_mmsdm remote proc table f dry_run fs with
      | (r, fs1, ev) =>
          match downloadGo remote proc table dry_run rest fs1 with
          | (rs, fs2, evs) =>
              ((match r with | some d => d :: rs | none => rs), fs2, ev ++ evs)

/-- Embeds `download_mmsdm` (`mmsdm.py` lines 211–230): look up the table,
resolve all periods, run the pipeline over each in order.  The result list
holds the per-period dataframes in chronological order (their concatenation by
`pd.concat`); when every period yields nothing the list is empty, which is the
`except ValueError: return pd.DataFrame()` branch returning an explicitly
empty result. -/
def download_mmsdm {α : Type} (remote : Nat → Nat → Option α)
    (proc : MMSDMTable → MMSDMFile → α → α) (start finish : Date) (table_name : String)
    (base_directory : FsPath) (dry_run : Bool) (fs : List (FsPath × α)) :
    Except TableNotFoundError (List α × List (FsPath × α) × List Ev) :=
  match find_mmsdm_table table_name with
  | Except.error e => Except.error e
  | Except.ok table =>
      match make_many_mmsdm_files start finish table base_directory with
      | Except.error e => Except.error e
      | Except.ok files => Except.ok (downloadGo remote proc table dry_run files fs)

/-! ## Shared helper definitions and lemmas -/

instance {ε α : Type _} [DecidableEq ε] [DecidableEq α] : DecidableEq (Except ε α) := fun x y =>
  match x, y with
  | Except.ok a, Except.ok b =>
      if h : a = b then isTrue (by rw [h]) else isFalse (fun hc => h (Except.ok.inj hc))
  | Except.ok _, Except.error _ => isFalse (fun hc => Except.noConfusion hc)
  | Except.error _, Except.ok _ => isFalse (fun hc => Except.noConfusion hc)
  | Except.error a, Except.error b =>
      if h : a = b then isTrue (by rw [h]) else isFalse (fun hc => h (Except.error.inj hc))

/-- The catalog entry named "dispatch-price" (`mmsdm.py` lines 34–41). -/
def dispatchPriceTable : MMSDMTable :=
  { name := "dispatch-price", table := "DISPATCHPRICE", directory := "DATA",
    datetime_columns := some ["SETTLEMENTDATE"],
    interval_column := some "SETTLEMENTDATE", frequency := some (Freq.fixed 5) }

/-- The catalog entry named "predispatch" (`mmsdm.py` lines 42–50). -/
def predispatchTable : MMSDMTable :=
  { name := "predispatch", table := "PREDISPATCHPRICE#ALL#FILE01", directory := "PREDISP_ALL_DATA",
    datetime_columns := some ["LASTCHANGED", "DATETIME"],
    interval_column := some "DATETIME", frequency := some (Freq.fixed 30),
    legacy_table := some "PREDISPATCHPRICE" }

/-- The catalog entry named "unit-scada" (`mmsdm.py` lines 51–58). -/
def unitScadaTable : MMSDMTable :=
  { name := "unit-scada", table := "DISPATCH_UNIT_SCADA", directory := "DATA",
    datetime_columns := some ["LASTCHANGED", "SETTLEMENTDATE"],
    interval_column := some "SETTLEMENTDATE", frequency := some (Freq.fixed 5) }

/-- A descriptor sharing only its `name` with the catalog "predispatch" entry;
every other field is altered. -/
def predispatchAltered : MMSDMTable :=
  { name := "predispatch", table := "SOMETHING_ELSE", directory := "OTHER",
    datetime_columns := none, interval_column := none, frequency := none,
    legacy_table := some "X" }

lemma encodeHash_data_no_hash (l : List Char) :
    ∀ c ∈ l.foldr (fun c acc => if c = '#' then '%' :: '2' :: '3' :: acc else c :: acc) [],
      c ≠ '#' := by
  induction l with
  | nil => simp
  | cons a l ih =>
      intro c hc
      simp only [List.foldr] at hc
      by_cases ha : a = '#'
      · rw [if_pos ha] at hc
        simp only [List.mem_cons] at hc
        rcases hc with h | h | h | h
        · rw [h]; decide
        · rw [h]; decide
        · rw [h]; decide
        · exact ih c h
      · rw [if_neg ha] at hc
        simp only [List.mem_cons] at hc
        rcases hc with h | h
        · rw [h]; exact ha
        · exact ih c h

lemma encodeHash_no_hash (s : String) : ∀ c ∈ (encodeHash s).data, c ≠ '#' :=
  encodeHash_data_no_hash s.data

/-! ## C1: naming scheme of `make_one_mmsdm_file` -/

/-- C1: for every table descriptor, year, and month in `[1, 12]`,
`make_one_mmsdm_file` follows the cutover rule.  On or after (2024, 8), the
URL is the `'#' ↦ "%23"` percent-encoding of the name built from the primary
`table` identifier with the `PUBLIC_ARCHIVE` prefix (so the URL contains no
literal `'#'`), while `csv_name` keeps each `'#'` literal.  Before the
cutover, both URL and CSV name use the `PUBLIC_DVD` prefix with the
`legacy_table` identifier when it is set, and the primary identifier
otherwise. -/
theorem make_one_mmsdm_file_naming (table : MMSDMTable) (year month : Nat) (base : FsPath)
    (h1 : 1 ≤ month) (h2 : month ≤ 12) (hleg : table.legacy_table ≠ some "") :
    (2024 < year ∨ (year = 2024 ∧ 8 ≤ month) →
      (make_one_mmsdm_file year month table base).url =
        encodeHash (urlStem year (zfill 2 (natStr month)) ++ "/" ++ table.directory ++
          "/PUBLIC_ARCHIVE#" ++ table.table ++ "#" ++
          (natStr year ++ zfill 2 (natStr month) ++ "010000") ++ ".zip") ∧
      (∀ c ∈ (make_one_mmsdm_file year month table base).url.data, c ≠ '#') ∧
      (make_one_mmsdm_file year month table base).csv_name =
        "PUBLIC_ARCHIVE#" ++ table.table ++ "#" ++
          (natStr year ++ zfill 2 (natStr month) ++ "010000") ++ ".CSV") ∧
    (¬(2024 < year ∨ (year = 2024 ∧ 8 ≤ month)) →
      (make_one_mmsdm_file year month table base).url =
        urlStem year (zfill 2 (natStr month)) ++ "/" ++ table.directory ++
          "/PUBLIC_DVD_" ++ table.legacy_table.getD table.table ++ "_" ++
          (natStr year ++ zfill 2 (natStr month) ++ "010000") ++ ".zip" ∧
      (make_one_mmsdm_file year month table base).csv_name =
        "PUBLIC_DVD_" ++ table.legacy_table.getD table.table ++ "_" ++
          (natStr year ++ zfill 2 (natStr month) ++ "010000") ++ ".CSV") := by
  have hlegName :
      (match table.legacy_table with
        | some l => if l.isEmpty then table.table else l
        | none => table.table) = table.legacy_table.getD table.table := by
    cases hl : table.legacy_table with
    | none => rfl
    | some l =>
        have hne : l ≠ "" := by
          intro h; exact hleg (by rw [hl, h])
        simp only [Option.getD]
        rw [if_neg (by simpa [String.isEmpty_iff] using hne)]
  constructor
  · intro h
    simp only [make_one_mmsdm_file]
    rw [if_pos (show atOrAfterCutover year month from h)]
    exact ⟨rfl, encodeHash_no_hash _, rfl⟩
  · intro h
    simp only [make_one_mmsdm_file]
    rw [if_neg (show ¬atOrAfterCutover year month from h)]
    rw [hlegName]
    exact ⟨rfl, rfl⟩

/-- Witness for C1: concrete evaluation on the "predispatch" entry at the
cutover month (2024, 8) and the month before it (2024, 7). -/
theorem make_one_mmsdm_file_naming_witness :
    '#' ∉ (make_one_mmsdm_file 2024 8 predispatchTable []).url.data ∧
    (make_one_mmsdm_file 2024 8 predispatchTable []).csv_name =
      "PUBLIC_ARCHIVE#PREDISPATCHPRICE#ALL#FILE01#202408010000.CSV" ∧
    (make_one_mmsdm_file 2024 7 predispatchTable []).csv_name =
      "PUBLIC_DVD_PREDISPATCHPRICE_202407010000.CSV" := by
  have h8 := (make_one_mmsdm_file_naming predispatchTable 2024 8 []
    (by decide) (by decide) (by decide)).1 (by decide)
  have h7 := (make_one_mmsdm_file_naming predispatchTable 2024 7 []
    (by decide) (by decide) (by decide)).2 (by decide)
  refine ⟨fun hc => h8.2.1 '#' hc rfl, ?_, ?_⟩
  · rw [h8.2.2]; decide
  · rw [h7.2]; decide

/-! ## C2: month-range expansion of `make_many_mmsdm_files` -/

lemma mem_monthStarts (start finish : Date) (hs : ValidDate start) (hf : ValidDate finish)
    (y m : Nat) (h1 : 1 ≤ m) (h2 : m ≤ 12) :
    (y, m) ∈ monthStarts start finish ↔
      (Date.le start ⟨y, m, 1⟩ ∧ Date.le ⟨y, m, 1⟩ finish) := by
  obtain ⟨hs1, hs2, hs3, hs4⟩ := hs
  obtain ⟨hf1, hf2, hf3, hf4⟩ := hf
  unfold monthStarts
  by_cases hd : start.d ≤ 1
  · rw [if_pos hd]
    constructor
    · rintro h
      rw [List.mem_map] at h
      obtain ⟨i, hmem, heq⟩ := h
      rw [List.mem_range'_1] at hmem
      unfold idxYM at heq
      rw [Prod.mk.injEq] at heq
      unfold monthIdx at hmem
      unfold Date.le
      dsimp only
      omega
    · rintro ⟨ha, hb⟩
      rw [List.mem_map]
      refine ⟨monthIdx y m, ?_, ?_⟩
      · rw [List.mem_range'_1]
        unfold Date.le at ha hb
        dsimp only at ha hb
        unfold monthIdx
        omega
      · unfold idxYM monthIdx
        rw [Prod.mk.injEq]
        omega
  · rw [if_neg hd]
    constructor
    · rintro h
      rw [List.mem_map] at h
      obtain ⟨i, hmem, heq⟩ := h
      rw [List.mem_range'_1] at hmem
      unfold idxYM at heq
      rw [Prod.mk.injEq] at heq
      unfold monthIdx at hmem
      unfold Date.le
      dsimp only
      omega
    · rintro ⟨ha, hb⟩
      rw [List.mem_map]
      refine ⟨monthIdx y m, ?_, ?_⟩
      · rw [List.mem_range'_1]
        unfold Date.le at ha hb
        dsimp only at ha hb
        unfold monthIdx
        omega
      · unfold idxYM monthIdx
        rw [Prod.mk.injEq]
        omega

lemma monthStarts_chronological (start finish : Date) :
    (monthStarts start finish).Pairwise
      (fun p q => p.1 < q.1 ∨ (p.1 = q.1 ∧ p.2 < q.2)) := by
  unfold monthStarts
  rw [List.pairwise_map]
  refine List.Pairwise.imp ?_ (List.pairwise_lt_range' _ _)
  intro i j hij
  unfold idxYM
  dsimp only
  omega

/-- Counterexample to C2 as stated: `start` and `end` both equal to
2020-01-15 fall in the same calendar month and satisfy `start ≤ end`, yet
`make_many_mmsdm_files` produces zero `MMSDMFile`s, not exactly one, because
no first-of-month boundary lies in the inclusive range. -/
theorem make_many_mmsdm_files_same_month_counterexample :
    Date.le ⟨2020, 1, 15⟩ ⟨2020, 1, 15⟩ ∧
    ValidDate ⟨2020, 1, 15⟩ ∧
    make_many_mmsdm_files ⟨2020, 1, 15⟩ ⟨2020, 1, 15⟩ dispatchPriceTable [] =
      Except.ok [] := by
  refine ⟨by decide, by decide, by decide⟩

/-- C2 (amended): for valid `start ≤ end`, `make_many_mmsdm_files` produces
one `MMSDMFile` per first-of-month boundary in the inclusive range, in
chronological order; when `start` and `end` fall within the same calendar
month, exactly one `MMSDMFile` is produced if `start` is on the first day of
the month (and zero otherwise, per the counterexample). -/
theorem make_many_mmsdm_files_month_starts (start finish : Date) (table t : MMSDMTable)
    (base : FsPath) (hs : ValidDate start) (hf : ValidDate finish)
    (hle : Date.le start finish)
    (hfind : find_mmsdm_table table.name = Except.ok t) :
    make_many_mmsdm_files start finish table base =
      Except.ok ((monthStarts start finish).map
        (fun p => make_one_mmsdm_file p.1 p.2 t base)) ∧
    (∀ y m, 1 ≤ m → m ≤ 12 →
      ((y, m) ∈ monthStarts start finish ↔
        Date.le start ⟨y, m, 1⟩ ∧ Date.le ⟨y, m, 1⟩ finish)) ∧
    (monthStarts start finish).Pairwise
      (fun p q => p.1 < q.1 ∨ (p.1 = q.1 ∧ p.2 < q.2)) ∧
    (start.y = finish.y → start.m = finish.m → start.d = 1 →
      (monthStarts start finish).length = 1) := by
  refine ⟨?_, fun y m h1 h2 => mem_monthStarts start finish hs hf y m h1 h2,
    monthStarts_chronological start finish, ?_⟩
  · unfold make_many_mmsdm_files
    rw [hfind]
  · intro hy hm hd
    unfold monthStarts
    rw [if_pos (by omega)]
    rw [List.length_map, List.length_range']
    unfold monthIdx
    omega

/-- Witness for C2 (amended): the range 2020-01-01 .. 2020-03-15 on the
"dispatch-price" table. -/
theorem make_many_mmsdm_files_month_starts_witness :
    make_many_mmsdm_files ⟨2020, 1, 1⟩ ⟨2020, 3, 15⟩ dispatchPriceTable [] =
      Except.ok ((monthStarts ⟨2020, 1, 1⟩ ⟨2020, 3, 15⟩).map
        (fun p => make_one_mmsdm_file p.1 p.2 dispatchPriceTable [])) ∧
    ((2020, 2) ∈ monthStarts ⟨2020, 1, 1⟩ ⟨2020, 3, 15⟩ ↔
      Date.le ⟨2020, 1, 1⟩ ⟨2020, 2, 1⟩ ∧ Date.le ⟨2020, 2, 1⟩ ⟨2020, 3, 15⟩) ∧
    (monthStarts ⟨2020, 1, 1⟩ ⟨2020, 1, 20⟩).length = 1 := by
  have h := make_many_mmsdm_files_month_starts ⟨2020, 1, 1⟩ ⟨2020, 3, 15⟩
    dispatchPriceTable dispatchPriceTable [] (by decide) (by decide) (by decide) (by decide)
  have h2 := make_many_mmsdm_files_month_starts ⟨2020, 1, 1⟩ ⟨2020, 1, 20⟩
    dispatchPriceTable dispatchPriceTable [] (by decide) (by decide) (by decide) (by decide)
  exact ⟨h.1, h.2.1 2020 2 (by decide) (by decide), h2.2.2.2 rfl rfl rfl⟩

/-! ## C9: the catalog lookup contract -/

lemma mmsdm_names_nodup : (mmsdm_tables.map (fun t => t.name)).Nodup := by decide

lemma find_from_eq_some (l : List MMSDMTable) (name : String) (t : MMSDMTable)
    (hnd : (l.map (fun x => x.name)).Nodup) (hmem : t ∈ l) (hname : t.name = name) :
    find_from name l = some t := by
  induction l with
  | nil => cases hmem
  | cons a l ih =>
      rw [List.map_cons, List.nodup_cons] at hnd
      unfold find_from
      rcases List.mem_cons.mp hmem with h | h
      · rw [if_pos (by rw [← h]; exact hname)]
        rw [h]
      · have ha : a.name ≠ name := by
          intro hc
          exact hnd.1 (by
            rw [hc, ← hname]
            exact List.mem_map.mpr ⟨t, h, rfl⟩)
        rw [if_neg ha]
        exact ih hnd.2 h

lemma find_from_eq_none (l : List MMSDMTable) (name : String)
    (h : ∀ t, t ∈ l → t.name ≠ name) : find_from name l = none := by
  induction l with
  | nil => rfl
  | cons a l ih =>
      unfold find_from
      rw [if_neg (h a (List.mem_cons_self a l))]
      exact ih (fun t ht => h t (List.mem_cons_of_mem a ht))

/-- C9: the catalog lookup returns the (unique, by `mmsdm_names_nodup`)
descriptor whose `name` field equals the requested name when one exists, and
otherwise fails with an error carrying the requested key and the list of all
valid keys; it never silently returns a default. -/
theorem find_mmsdm_table_contract (name : String) :
    (∀ t, t ∈ mmsdm_tables → t.name = name → find_mmsdm_table name = Except.ok t) ∧
    ((∀ t, t ∈ mmsdm_tables → t.name ≠ name) →
      find_mmsdm_table name =
        Except.error ⟨name, mmsdm_tables.map (fun t => t.name)⟩) := by
  constructor
  · intro t hmem hname
    unfold find_mmsdm_table
    rw [find_from_eq_some mmsdm_tables name t mmsdm_names_nodup hmem hname]
  · intro h
    unfold find_mmsdm_table
    rw [find_from_eq_none mmsdm_tables name h]

/-- Witness for C9: lookup of the present name "unit-scada" and of an absent
name. -/
theorem find_mmsdm_table_contract_witness :
    find_mmsdm_table "unit-scada" = Except.ok unitScadaTable ∧
    find_mmsdm_table "not-a-table" =
      Except.error ⟨"not-a-table", mmsdm_tables.map (fun t => t.name)⟩ :=
  ⟨(find_mmsdm_table_contract "unit-scada").1 unitScadaTable (by decide) rfl,
   (find_mmsdm_table_contract "not-a-table").2 (by decide)⟩

/-! ## C10: `make_many_mmsdm_files` depends only on the descriptor's name -/

/-- C10: `make_many_mmsdm_files` re-resolves the descriptor through the
catalog by `name` (`mmsdm.py` line 140), so two descriptor arguments sharing a
`name` produce identical results, whatever their other fields. -/
theorem make_many_mmsdm_files_name_only (start finish : Date) (t t2 : MMSDMTable)
    (base : FsPath) (h : t.name = t2.name) :
    make_many_mmsdm_files start finish t base =
      make_many_mmsdm_files start finish t2 base := by
  unfold make_many_mmsdm_files
  rw [h]

/-- Witness for C10: the catalog "predispatch" entry against a descriptor
agreeing with it only on `name`. -/
theorem make_many_mmsdm_files_name_only_witness :
    make_many_mmsdm_files ⟨2024, 7, 1⟩ ⟨2024, 8, 31⟩ predispatchTable [] =
      make_many_mmsdm_files ⟨2024, 7, 1⟩ ⟨2024, 8, 31⟩ predispatchAltered [] :=
  make_many_mmsdm_files_name_only ⟨2024, 7, 1⟩ ⟨2024, 8, 31⟩
    predispatchTable predispatchAltered [] rfl

/-! ## Dataframe column lemmas -/

lemma getCol_cons (p : String × List Cell) (l : DataFrame) (q : String) :
    getCol (p :: l) q = if p.1 = q then some p.2 else getCol l q := by
  obtain ⟨a, b⟩ := p
  rfl

lemma getCol_setCol (d : DataFrame) (name : String) (v : List Cell) (col : String) :
    getCol (setCol d name v) col =
      if col = name then (getCol d name).map (fun _ => v) else getCol d col := by
  induction d with
  | nil => simp [getCol, setCol, ite_self]
  | cons hd rest ih =>
      obtain ⟨k, c⟩ := hd
      rw [show setCol ((k, c) :: rest) name v =
        (if k = name then (name, v) else (k, c)) :: setCol rest name v from rfl]
      by_cases hk : k = name
      · rw [if_pos hk]
        simp only [getCol_cons, ih]
        split_ifs <;> first | rfl | simp_all
      · rw [if_neg hk]
        simp only [getCol_cons, ih]
        split_ifs <;> first | rfl | simp_all

lemma getCol_append_some (d e : DataFrame) (col : String) (v : List Cell)
    (h : getCol d col = some v) : getCol (d ++ e) col = some v := by
  induction d with
  | nil => exact absurd h (by simp [getCol])
  | cons hd rest ih =>
      obtain ⟨k, c⟩ := hd
      have h2 : (if k = col then some c else getCol rest col) = some v := h
      rw [List.cons_append,
        show getCol ((k, c) :: (rest ++ e)) col =
          (if k = col then some c else getCol (rest ++ e) col) from rfl]
      by_cases hk : k = col
      · rw [if_pos hk] at h2 ⊢; exact h2
      · rw [if_neg hk] at h2 ⊢; exact ih h2

lemma getCol_append_none (d e : DataFrame) (col : String)
    (h : getCol d col = none) : getCol (d ++ e) col = getCol e col := by
  induction d with
  | nil => rfl
  | cons hd rest ih =>
      obtain ⟨k, c⟩ := hd
      have h2 : (if k = col then some c else getCol rest col) = none := h
      rw [List.cons_append,
        show getCol ((k, c) :: (rest ++ e)) col =
          (if k = col then some c else getCol (rest ++ e) col) from rfl]
      by_cases hk : k = col
      · rw [if_pos hk] at h2; cases h2
      · rw [if_neg hk] at h2 ⊢; exact ih h2

lemma getCol_upsert_self (d : DataFrame) (name : String) (v : List Cell) :
    getCol (upsertCol d name v) name = some v := by
  unfold upsertCol
  cases h : getCol d name with
  | none =>
      rw [getCol_append_none d _ name h,
        show getCol [(name, v)] name = (if name = name then some v else none) from rfl,
        if_pos rfl]
  | some c =>
      rw [getCol_setCol, if_pos rfl, h]
      rfl

lemma getCol_upsert_ne (d : DataFrame) (name : String) (v : List Cell) (col : String)
    (hne : col ≠ name) : getCol (upsertCol d name v) col = getCol d col := by
  unfold upsertCol
  cases h : getCol d name with
  | none =>
      cases hcol : getCol d col with
      | none =>
          rw [getCol_append_none d _ col hcol,
            show getCol [(name, v)] col = (if name = col then some v else none) from rfl,
            if_neg (fun hc => hne hc.symm)]
      | some w => rw [getCol_append_some d _ col w hcol]
  | some c => rw [getCol_setCol, if_neg hne]

lemma normCell_idem (parse : String → Int) (cell : Cell) :
    normCell parse (normCell parse cell) = normCell parse cell := by
  cases cell <;> rfl

lemma map_normCell_idem (parse : String → Int) (c : List Cell) :
    (c.map (normCell parse)).map (normCell parse) = c.map (normCell parse) := by
  rw [List.map_map]
  exact List.map_congr_left (fun cell _ => normCell_idem parse cell)

lemma getCol_normStep (parse : String → Int) (d : DataFrame) (x col : String) :
    getCol (normStep parse d x) col =
      if col = x then (getCol d x).map (fun c => c.map (normCell parse))
      else getCol d col := by
  unfold normStep
  cases h : getCol d x with
  | none =>
      by_cases hx : col = x
      · rw [if_pos hx]
        show getCol d col = Option.map _ none
        rw [hx, h]
        rfl
      · rw [if_neg hx]
  | some c =>
      show getCol (setCol d x (c.map (normCell parse))) col = _
      rw [getCol_setCol]
      by_cases hx : col = x
      · rw [if_pos hx, if_pos hx, h]
        rfl
      · rw [if_neg hx, if_neg hx]

lemma getCol_foldl_normStep (parse : String → Int) (L : List String) :
    ∀ (d : DataFrame) (col : String),
      getCol (L.foldl (normStep parse) d) col =
        if col ∈ L then (getCol d col).map (fun c => c.map (normCell parse))
        else getCol d col := by
  induction L with
  | nil => intro d col; simp
  | cons x xs ih =>
      intro d col
      rw [List.foldl_cons, ih, getCol_normStep]
      by_cases hx : col = x <;> by_cases hxs : col ∈ xs
      · rw [if_pos hxs, if_pos (List.mem_cons.mpr (Or.inl hx)), if_pos hx]
        subst hx
        cases hcol : getCol d col with
        | none => rfl
        | some c => exact congrArg some (map_normCell_idem parse c)
      · rw [if_neg hxs, if_pos hx, if_pos (List.mem_cons.mpr (Or.inl hx))]
        rw [hx]
      · rw [if_pos hxs, if_neg hx, if_pos (List.mem_cons.mpr (Or.inr hxs))]
      · rw [if_neg hxs, if_neg hx,
          if_neg (fun hc => (List.mem_cons.mp hc).elim hx hxs)]

lemma normCell_shape (parse : String → Int) (cell : Cell) :
    ∃ t, normCell parse cell = Cell.dt t (some nem_tz) := by
  cases cell with
  | raw s => exact ⟨parse s, rfl⟩
  | dt t tz => exact ⟨t, rfl⟩

/-! ## C5: datetime normalization -/

/-- C5: after `make_datetime_columns`, every column named in the table's
`datetime_columns` plus the two synthetic columns "interval-start" and
"interval-end" that is present in the data is parsed so that each of its
cells is a timestamp carrying the fixed market timezone; any named column
absent from the data is skipped silently (the step still succeeds, and the
column stays absent). -/
theorem make_datetime_columns_normalizes (parse : String → Int) (data : DataFrame)
    (table : MMSDMTable) (dcs : List String)
    (hdcs : table.datetime_columns = some dcs) (hne : dcs ≠ []) :
    ∃ out, make_datetime_columns parse data table = some out ∧
      ∀ col ∈ dcs ++ ["interval-start", "interval-end"],
        (∀ c, getCol data col = some c →
          getCol out.1 col = some (c.map (normCell parse)) ∧
          ∀ cell ∈ c.map (normCell parse), ∃ t, cell = Cell.dt t (some nem_tz)) ∧
        (getCol data col = none → getCol out.1 col = none) := by
  refine ⟨((dcs ++ ["interval-start", "interval-end"]).foldl (normStep parse) data,
    { table with datetime_columns := some (dcs ++ ["interval-start", "interval-end"]) }),
    ?_, ?_⟩
  · simp only [make_datetime_columns, hdcs]
    rw [if_neg (by simpa [List.isEmpty_iff] using hne)]
  · intro col hcol
    constructor
    · intro c hc
      constructor
      · rw [getCol_foldl_normStep, if_pos hcol, hc]
        rfl
      · intro cell hcell
        obtain ⟨cell0, _, hcell0⟩ := List.mem_map.mp hcell
        obtain ⟨t, ht⟩ := normCell_shape parse cell0
        exact ⟨t, by rw [← hcell0, ht]⟩
    · intro hnone
      rw [getCol_foldl_normStep, if_pos hcol, hnone]
      rfl

/-- Witness for C5: the "dispatch-price" descriptor on a dataframe holding a
raw `SETTLEMENTDATE` column; the synthetic interval columns are absent and
skipped. -/
theorem make_datetime_columns_normalizes_witness :
    dispatchPriceTable.datetime_columns = some ["SETTLEMENTDATE"] ∧
    (∃ out, make_datetime_columns (fun _ => 42)
        [("SETTLEMENTDATE", [Cell.raw "2020-01-01"])] dispatchPriceTable = some out ∧
      ∀ col ∈ ["SETTLEMENTDATE"] ++ ["interval-start", "interval-end"],
        (∀ c, getCol [("SETTLEMENTDATE", [Cell.raw "2020-01-01"])] col = some c →
          getCol out.1 col = some (c.map (normCell (fun _ => 42))) ∧
          ∀ cell ∈ c.map (normCell (fun _ => 42)), ∃ t, cell = Cell.dt t (some nem_tz)) ∧
        (getCol [("SETTLEMENTDATE", [Cell.raw "2020-01-01"])] col = none →
          getCol out.1 col = none)) :=
  ⟨rfl, make_datetime_columns_normalizes (fun _ => 42)
    [("SETTLEMENTDATE", [Cell.raw "2020-01-01"])] dispatchPriceTable
    ["SETTLEMENTDATE"] rfl (by decide)⟩

/-! ## C6: the catalog is not immutable -/

/-- C6 is violated by the code: `make_datetime_columns` extends the
`datetime_columns` list of the passed-in catalog descriptor in place
(`datetime_columns += ["interval-start", "interval-end"]` at `mmsdm.py` line
200 operates on the very list object aliased from the pydantic model), so
after one call on the catalog entry "dispatch-price" the entry's
`datetime_columns` is `["SETTLEMENTDATE", "interval-start", "interval-end"]`,
no longer its original value. -/
theorem make_datetime_columns_mutates_catalog :
    dispatchPriceTable ∈ mmsdm_tables ∧
    dispatchPriceTable.datetime_columns = some ["SETTLEMENTDATE"] ∧
    (make_datetime_columns (fun _ => 0) [] dispatchPriceTable).map
        (fun out => out.2.datetime_columns) =
      some (some ["SETTLEMENTDATE", "interval-start", "interval-end"]) ∧
    some ["SETTLEMENTDATE", "interval-start", "interval-end"] ≠
      dispatchPriceTable.datetime_columns := by
  refine ⟨by decide, rfl, by decide, by decide⟩

/-! ## C7: interval derivation -/

/-- The variable frequency of the "trading-price" catalog entry. -/
def tradingPriceFreq : Freq :=
  Freq.varying
    { frequency_minutes_before := 30,
      frequency_minutes_after := 5,
      transition_datetime_interval_end := transition_datetime_interval_end }

/-- The catalog entry named "trading-price" (`mmsdm.py` lines 59–70), the
variable-frequency table. -/
def tradingPriceTable : MMSDMTable :=
  { name := "trading-price", table := "TRADINGPRICE", directory := "DATA",
    datetime_columns := some ["SETTLEMENTDATE"],
    interval_column := some "SETTLEMENTDATE",
    frequency := some tradingPriceFreq }

/-- C7: `add_interval_column` sets "interval-end" to the interval column's
value and "interval-start" to that value minus the applicable frequency in
minutes.  For a fixed-frequency table the difference end − start equals the
frequency on every row; for a variable-frequency table, rows at or after the
transition instant use the "after" granularity and rows strictly before it
use the "before" granularity, with the same start/end computation. -/
theorem add_interval_column_intervals (data : DataFrame) (table : MMSDMTable)
    (ic : String) (fr : Freq) (col : List Cell)
    (hic : table.interval_column = some ic) (hfr : table.frequency = some fr)
    (hcol : getCol data ic = some col) :
    ∃ out, add_interval_column data table = some out ∧
      getCol out "interval-end" = some col ∧
      getCol out "interval-start" = some (col.map (intervalStartCell fr)) ∧
      ∀ i t tz, col.get? i = some (Cell.dt t tz) →
        (col.map (intervalStartCell fr)).get? i = some (Cell.dt (t - freqFor fr t) tz) ∧
        (∀ n, fr = Freq.fixed n → t - (t - freqFor fr t) = n) ∧
        (∀ vf, fr = Freq.varying vf →
          (vf.transition_datetime_interval_end ≤ t →
            freqFor fr t = vf.frequency_minutes_after) ∧
          (t < vf.transition_datetime_interval_end →
            freqFor fr t = vf.frequency_minutes_before)) := by
  refine ⟨upsertCol (upsertCol data "interval-start" (col.map (intervalStartCell fr)))
    "interval-end" col, ?_, ?_, ?_, ?_⟩
  · simp only [add_interval_column, hic, hfr, hcol]
  · exact getCol_upsert_self _ _ _
  · rw [getCol_upsert_ne _ _ _ _ (by decide)]
    exact getCol_upsert_self _ _ _
  · intro i t tz hi
    refine ⟨?_, ?_, ?_⟩
    · rw [List.get?_map, hi]
      rfl
    · intro n hn
      subst hn
      show t - (t - n) = n
      omega
    · intro vf hvf
      subst hvf
      constructor
      · intro h
        show (if vf.transition_datetime_interval_end ≤ t then vf.frequency_minutes_after
          else vf.frequency_minutes_before) = vf.frequency_minutes_after
        rw [if_pos h]
      · intro h
        show (if vf.transition_datetime_interval_end ≤ t then vf.frequency_minutes_after
          else vf.frequency_minutes_before) = vf.frequency_minutes_before
        rw [if_neg (by omega)]

/-- Witness for C7: a fixed-frequency table ("dispatch-price", 5 minutes) and
the variable-frequency table ("trading-price") on concrete one-row data. -/
theorem add_interval_column_intervals_witness :
    (dispatchPriceTable.interval_column = some "SETTLEMENTDATE" ∧
     dispatchPriceTable.frequency = some (Freq.fixed 5) ∧
     getCol [("SETTLEMENTDATE", [Cell.dt 100 none])] "SETTLEMENTDATE" =
       some [Cell.dt 100 none] ∧
     ∃ out, add_interval_column [("SETTLEMENTDATE", [Cell.dt 100 none])]
         dispatchPriceTable = some out ∧
       getCol out "interval-end" = some [Cell.dt 100 none] ∧
       getCol out "interval-start" =
         some ([Cell.dt 100 none].map (intervalStartCell (Freq.fixed 5))) ∧
       ∀ i t tz, [Cell.dt 100 none].get? i = some (Cell.dt t tz) →
         ([Cell.dt 100 none].map (intervalStartCell (Freq.fixed 5))).get? i =
           some (Cell.dt (t - freqFor (Freq.fixed 5) t) tz) ∧
         (∀ n, Freq.fixed 5 = Freq.fixed n →
           t - (t - freqFor (Freq.fixed 5) t) = n) ∧
         (∀ vf, Freq.fixed 5 = Freq.varying vf →
           (vf.transition_datetime_interval_end ≤ t →
             freqFor (Freq.fixed 5) t = vf.frequency_minutes_after) ∧
           (t < vf.transition_datetime_interval_end →
             freqFor (Freq.fixed 5) t = vf.frequency_minutes_before))) ∧
    (∃ out, add_interval_column [("SETTLEMENTDATE", [Cell.dt (-3) none, Cell.dt 7 none])]
        tradingPriceTable = some out ∧
      getCol out "interval-end" = some [Cell.dt (-3) none, Cell.dt 7 none] ∧
      getCol out "interval-start" =
        some ([Cell.dt (-3) none, Cell.dt 7 none].map
          (intervalStartCell tradingPriceFreq)) ∧
      ∀ i t tz, [Cell.dt (-3) none, Cell.dt 7 none].get? i = some (Cell.dt t tz) →
        ([Cell.dt (-3) none, Cell.dt 7 none].map
          (intervalStartCell tradingPriceFreq)).get? i =
          some (Cell.dt (t - freqFor tradingPriceFreq t) tz) ∧
        (∀ n, tradingPriceFreq = Freq.fixed n →
          t - (t - freqFor tradingPriceFreq t) = n) ∧
        (∀ vf, tradingPriceFreq = Freq.varying vf →
          (vf.transition_datetime_interval_end ≤ t →
            freqFor tradingPriceFreq t = vf.frequency_minutes_after) ∧
          (t < vf.transition_datetime_interval_end →
            freqFor tradingPriceFreq t = vf.frequency_minutes_before))) :=
  ⟨⟨rfl, rfl, rfl,
    add_interval_column_intervals [("SETTLEMENTDATE", [Cell.dt 100 none])]
      dispatchPriceTable "SETTLEMENTDATE" (Freq.fixed 5) [Cell.dt 100 none]
      rfl rfl rfl⟩,
   add_interval_column_intervals [("SETTLEMENTDATE", [Cell.dt (-3) none, Cell.dt 7 none])]
     tradingPriceTable "SETTLEMENTDATE" tradingPriceFreq
     [Cell.dt (-3) none, Cell.dt 7 none] rfl rfl rfl⟩

/-! ## Decimal rendering is injective

Needed to show that distinct (year, month) periods resolve to distinct local
cache directories. -/

lemma digitChar_inj10 : ∀ m, m < 10 → ∀ n, n < 10 → digitChar m = digitChar n → m = n := by
  decide

lemma natDigitsAux_length_pos (fuel n : Nat) (h : n < fuel) :
    0 < (natDigitsAux fuel n).length := by
  cases fuel with
  | zero => omega
  | succ f =>
      show 0 < (if n < 10 then [digitChar n]
        else natDigitsAux f (n / 10) ++ [digitChar (n % 10)]).length
      by_cases h10 : n < 10
      · rw [if_pos h10]; simp
      · rw [if_neg h10]; simp

lemma natDigitsAux_fuel : ∀ (f1 n f2 : Nat), n < f1 → n < f2 →
    natDigitsAux f1 n = natDigitsAux f2 n := by
  intro f1
  induction f1 with
  | zero => intro n f2 h1 h2; omega
  | succ f ih =>
      intro n f2 h1 h2
      cases f2 with
      | zero => omega
      | succ g =>
          show (if n < 10 then [digitChar n]
              else natDigitsAux f (n / 10) ++ [digitChar (n % 10)]) =
            (if n < 10 then [digitChar n]
              else natDigitsAux g (n / 10) ++ [digitChar (n % 10)])
          by_cases h10 : n < 10
          · rw [if_pos h10, if_pos h10]
          · rw [if_neg h10, if_neg h10, ih (n / 10) g (by omega) (by omega)]

lemma append_singleton_inj {a b : List Char} {x y : Char} (h : a ++ [x] = b ++ [y]) :
    a = b ∧ x = y := by
  have hl : a.length = b.length := by
    have := congrArg List.length h
    simp at this
    omega
  obtain ⟨h1, h2⟩ := List.append_inj h hl
  exact ⟨h1, by simpa using h2⟩

lemma natDigitsAux_inj : ∀ (fuel m n : Nat), m < fuel → n < fuel →
    natDigitsAux fuel m = natDigitsAux fuel n → m = n := by
  intro fuel
  induction fuel with
  | zero => intro m n h1 _ _; omega
  | succ f ih =>
      intro m n h1 h2 heq
      have heq2 : (if m < 10 then [digitChar m]
          else natDigitsAux f (m / 10) ++ [digitChar (m % 10)]) =
        (if n < 10 then [digitChar n]
          else natDigitsAux f (n / 10) ++ [digitChar (n % 10)]) := heq
      by_cases hm : m < 10 <;> by_cases hn : n < 10
      · rw [if_pos hm, if_pos hn] at heq2
        exact digitChar_inj10 m hm n hn (by simpa using heq2)
      · rw [if_pos hm, if_neg hn] at heq2
        have hlen := congrArg List.length heq2
        simp only [List.length_append, List.length_cons, List.length_nil] at hlen
        have hpos := natDigitsAux_length_pos f (n / 10) (by omega)
        omega
      · rw [if_neg hm, if_pos hn] at heq2
        have hlen := congrArg List.length heq2
        simp only [List.length_append, List.length_cons, List.length_nil] at hlen
        have hpos := natDigitsAux_length_pos f (m / 10) (by omega)
        omega
      · rw [if_neg hm, if_neg hn] at heq2
        obtain ⟨hq, hd⟩ := append_singleton_inj heq2
        have hmod : m % 10 = n % 10 :=
          digitChar_inj10 (m % 10) (by omega) (n % 10) (by omega) hd
        have hdiv : m / 10 = n / 10 := ih (m / 10) (n / 10) (by omega) (by omega) hq
        omega

lemma natDigits_inj (m n : Nat) (h : natDigits m = natDigits n) : m = n := by
  have h2 : natDigitsAux (max m n + 1) m = natDigitsAux (max m n + 1) n := by
    calc natDigitsAux (max m n + 1) m
        = natDigitsAux (m + 1) m := natDigitsAux_fuel _ _ _ (by omega) (by omega)
      _ = natDigitsAux (n + 1) n := h
      _ = natDigitsAux (max m n + 1) n := natDigitsAux_fuel _ _ _ (by omega) (by omega)
  exact natDigitsAux_inj _ m n (by omega) (by omega) h2

lemma zfill_month_data_len : ∀ m, m < 13 → (zfill 2 (natStr m)).data.length = 2 := by
  decide

lemma zfill_month_data_inj : ∀ m1, m1 < 13 → ∀ m2, m2 < 13 →
    (zfill 2 (natStr m1)).data = (zfill 2 (natStr m2)).data → m1 = m2 := by
  decide

lemma monthSeg_inj (y1 m1 y2 m2 : Nat) (hm1 : m1 ≤ 12) (hm2 : m2 ≤ 12)
    (h : natStr y1 ++ "-" ++ zfill 2 (natStr m1) = natStr y2 ++ "-" ++ zfill 2 (natStr m2)) :
    y1 = y2 ∧ m1 = m2 := by
  have hd : (natDigits y1 ++ ['-']) ++ (zfill 2 (natStr m1)).data =
      (natDigits y2 ++ ['-']) ++ (zfill 2 (natStr m2)).data := congrArg String.data h
  have hp1 : (zfill 2 (natStr m1)).data.length = 2 := zfill_month_data_len m1 (by omega)
  have hp2 : (zfill 2 (natStr m2)).data.length = 2 := zfill_month_data_len m2 (by omega)
  have hl : (natDigits y1 ++ ['-']).length = (natDigits y2 ++ ['-']).length := by
    have := congrArg List.length hd
    simp only [List.length_append] at this ⊢
    omega
  obtain ⟨hA, hB⟩ := List.append_inj hd hl
  obtain ⟨hy, _⟩ := append_singleton_inj hA
  exact ⟨natDigits_inj _ _ hy, zfill_month_data_inj m1 (by omega) m2 (by omega) hB⟩

/-! ## Paths of resolved files -/

lemma make_one_year (y m : Nat) (t : MMSDMTable) (b : FsPath) :
    (make_one_mmsdm_file y m t b).year = y := by
  simp only [make_one_mmsdm_file]
  split <;> rfl

lemma make_one_month (y m : Nat) (t : MMSDMTable) (b : FsPath) :
    (make_one_mmsdm_file y m t b).month = m := by
  simp only [make_one_mmsdm_file]
  split <;> rfl

lemma cleanPath_make_one (y m : Nat) (t : MMSDMTable) (b : FsPath) :
    cleanPath (make_one_mmsdm_file y m t b) =
      b ++ [t.name, natStr y ++ "-" ++ zfill 2 (natStr m), "clean.parquet"] := by
  unfold cleanPath
  simp only [make_one_mmsdm_file]
  split <;> simp

lemma parquet_ne_csv (a b : FsPath) : a ++ ["clean.parquet"] ≠ b ++ ["clean.csv"] := by
  intro h
  have h2 := congrArg List.getLast? h
  rw [List.getLast?_concat, List.getLast?_concat] at h2
  exact absurd (Option.some.inj h2) (by decide)

lemma cleanCsvPath_ne_cleanPath (g f : MMSDMFile) : cleanCsvPath g ≠ cleanPath f := by
  intro h
  exact parquet_ne_csv f.data_directory g.data_directory h.symm

lemma monthStarts_snd_bounds (s e : Date) : ∀ p ∈ monthStarts s e, 1 ≤ p.2 ∧ p.2 ≤ 12 := by
  intro p hp
  unfold monthStarts at hp
  rw [List.mem_map] at hp
  obtain ⟨i, _, hi⟩ := hp
  rw [← hi]
  unfold idxYM
  dsimp only
  omega

/-! ## Pipeline state lemmas -/

lemma fsLookup_insert {α : Type} (fs : List (FsPath × α)) (p q : FsPath) (v : α) :
    fsLookup (fsInsert fs q v) p = if p = q then some v else fsLookup fs p := rfl

lemma download_one_cached {α : Type} (remote : Nat → Nat → Option α)
    (proc : MMSDMTable → MMSDMFile → α → α) (table : MMSDMTable) (f : MMSDMFile)
    (dry : Bool) (fs : List (FsPath × α)) (d : α)
    (h : fsLookup fs (cleanPath f) = some d) :
    download_one_mmsdm remote proc table f dry fs = (some d, fs, [Ev.cached]) := by
  unfold download_one_mmsdm
  rw [h]

lemma download_one_unavail {α : Type} (remote : Nat → Nat → Option α)
    (proc : MMSDMTable → MMSDMFile → α → α) (table : MMSDMTable) (f : MMSDMFile)
    (dry : Bool) (fs : List (FsPath × α))
    (h1 : fsLookup fs (cleanPath f) = none) (h2 : remote f.year f.month = none) :
    download_one_mmsdm remote proc table f dry fs =
      (none, fs, [Ev.notCached, Ev.notAvailable]) := by
  unfold download_one_mmsdm
  rw [h1, h2]

lemma download_one_fresh {α : Type} (remote : Nat → Nat → Option α)
    (proc : MMSDMTable → MMSDMFile → α → α) (table : MMSDMTable) (f : MMSDMFile)
    (fs : List (FsPath × α)) (raw : α)
    (h1 : fsLookup fs (cleanPath f) = none) (h2 : remote f.year f.month = some raw) :
    download_one_mmsdm remote proc table f false fs =
      (some (proc table f raw),
       fsInsert (fsInsert fs (cleanCsvPath f) (proc table f raw)) (cleanPath f)
         (proc table f raw),
       [Ev.notCached, Ev.downloading, Ev.saving]) := by
  unfold download_one_mmsdm
  rw [h1, h2]
  rfl

lemma downloadGo_cons {α : Type} (remote : Nat → Nat → Option α)
    (proc : MMSDMTable → MMSDMFile → α → α) (table : MMSDMTable) (dry : Bool)
    (f : MMSDMFile) (rest : List MMSDMFile) (fs : List (FsPath × α)) :
    downloadGo remote proc table dry (f :: rest) fs =
      ((match (download_one_mmsdm remote proc table f dry fs).1 with
        | some d => d :: (downloadGo remote proc table dry rest
            (download_one_mmsdm remote proc table f dry fs).2.1).1
        | none => (downloadGo remote proc table dry rest
            (download_one_mmsdm remote proc table f dry fs).2.1).1),
       (downloadGo remote proc table dry rest
         (download_one_mmsdm remote proc table f dry fs).2.1).2.1,
       (download_one_mmsdm remote proc table f dry fs).2.2 ++
         (downloadGo remote proc table dry rest
           (download_one_mmsdm remote proc table f dry fs).2.1).2.2) := rfl

lemma downloadGo_preserve_some {α : Type} (remote : Nat → Nat → Option α)
    (proc : MMSDMTable → MMSDMFile → α → α) (table : MMSDMTable) :
    ∀ (files : List MMSDMFile) (fs : List (FsPath × α)) (p : FsPath) (v : α),
      fsLookup fs p = some v → (∀ g ∈ files, cleanCsvPath g ≠ p) →
      fsLookup (downloadGo remote proc table false files fs).2.1 p = some v := by
  intro files
  induction files with
  | nil => intro fs p v h _; exact h
  | cons f rest ih =>
      intro fs p v h hcsv
      rw [downloadGo_cons]
      cases hc : fsLookup fs (cleanPath f) with
      | some d =>
          rw [download_one_cached remote proc table f false fs d hc]
          exact ih fs p v h (fun g hg => hcsv g (List.mem_cons_of_mem f hg))
      | none =>
          cases hr : remote f.year f.month with
          | none =>
              rw [download_one_unavail remote proc table f false fs hc hr]
              exact ih fs p v h (fun g hg => hcsv g (List.mem_cons_of_mem f hg))
          | some raw =>
              rw [download_one_fresh remote proc table f fs raw hc hr]
              refine ih _ p v ?_ (fun g hg => hcsv g (List.mem_cons_of_mem f hg))
              rw [fsLookup_insert,
                if_neg (fun he : p = cleanPath f => by
                  rw [he, hc] at h; exact Option.noConfusion h),
                fsLookup_insert,
                if_neg (fun he : p = cleanCsvPath f =>
                  hcsv f (List.mem_cons_self f rest) he.symm)]
              exact h

lemma downloadGo_preserve_unavail {α : Type} (remote : Nat → Nat → Option α)
    (proc : MMSDMTable → MMSDMFile → α → α) (table : MMSDMTable) :
    ∀ (files : List MMSDMFile) (fs : List (FsPath × α)) (p : FsPath),
      fsLookup fs p = none →
      (∀ g ∈ files, cleanPath g = p → remote g.year g.month = none) →
      (∀ g ∈ files, cleanCsvPath g ≠ p) →
      fsLookup (downloadGo remote proc table false files fs).2.1 p = none := by
  intro files
  induction files with
  | nil => intro fs p h _ _; exact h
  | cons f rest ih =>
      intro fs p h havail hcsv
      rw [downloadGo_cons]
      cases hc : fsLookup fs (cleanPath f) with
      | some d =>
          rw [download_one_cached remote proc table f false fs d hc]
          exact ih fs p h (fun g hg => havail g (List.mem_cons_of_mem f hg))
            (fun g hg => hcsv g (List.mem_cons_of_mem f hg))
      | none =>
          cases hr : remote f.year f.month with
          | none =>
              rw [download_one_unavail remote proc table f false fs hc hr]
              exact ih fs p h (fun g hg => havail g (List.mem_cons_of_mem f hg))
                (fun g hg => hcsv g (List.mem_cons_of_mem f hg))
          | some raw =>
              rw [download_one_fresh remote proc table f fs raw hc hr]
              refine ih _ p ?_ (fun g hg => havail g (List.mem_cons_of_mem f hg))
                (fun g hg => hcsv g (List.mem_cons_of_mem f hg))
              rw [fsLookup_insert,
                if_neg (fun he : p = cleanPath f => by
                  rw [havail f (List.mem_cons_self f rest) he.symm] at hr
                  exact Option.noConfusion hr),
                fsLookup_insert,
                if_neg (fun he : p = cleanCsvPath f =>
                  hcsv f (List.mem_cons_self f rest) he.symm)]
              exact h

/-- After a run of the download loop, every processed period either has its
columnar artifact in the final filesystem state or its archive is remotely
unavailable. -/
lemma downloadGo_post_state {α : Type} (remote : Nat → Nat → Option α)
    (proc : MMSDMTable → MMSDMFile → α → α) (table : MMSDMTable) :
    ∀ (files : List MMSDMFile) (fs : List (FsPath × α)) (f : MMSDMFile), f ∈ files →
      (fsLookup (downloadGo remote proc table false files fs).2.1
        (cleanPath f)).isSome = true ∨
      remote f.year f.month = none := by
  intro files
  induction files with
  | nil => intro fs f hf; exact absurd hf (List.not_mem_nil f)
  | cons g rest ih =>
      intro fs f hf
      cases hc : fsLookup fs (cleanPath g) with
      | some d =>
          rw [downloadGo_cons remote proc table false g rest fs,
            download_one_cached remote proc table g false fs d hc]
          rcases List.mem_cons.mp hf with rfl | hfr
          · left
            rw [downloadGo_preserve_some remote proc table rest fs (cleanPath f) d hc
              (fun h _ => cleanCsvPath_ne_cleanPath h f)]
            rfl
          · exact ih fs f hfr
      | none =>
          cases hr : remote g.year g.month with
          | none =>
              rw [downloadGo_cons remote proc table false g rest fs,
                download_one_unavail remote proc table g false fs hc hr]
              rcases List.mem_cons.mp hf with rfl | hfr
              · right; exact hr
              · exact ih fs f hfr
          | some raw =>
              rw [downloadGo_cons remote proc table false g rest fs,
                download_one_fresh remote proc table g fs raw hc hr]
              rcases List.mem_cons.mp hf with rfl | hfr
              · left
                have hl1 : fsLookup (fsInsert (fsInsert fs (cleanCsvPath f)
                    (proc table f raw)) (cleanPath f) (proc table f raw))
                    (cleanPath f) = some (proc table f raw) := by
                  rw [fsLookup_insert, if_pos rfl]
                rw [downloadGo_preserve_some remote proc table rest _ (cleanPath f) _ hl1
                  (fun h _ => cleanCsvPath_ne_cleanPath h f)]
                rfl
              · exact ih _ f hfr

/-- Re-running the download loop from the filesystem state left by a first
run returns the same results and leaves the filesystem unchanged, and its
event list is determined period by period: a period whose columnar artifact
exists in that state contributes a cache hit, and a period without one
contributes a fresh "not cached / not available" probe (such a period is
necessarily unavailable, by `downloadGo_post_state`). -/
lemma downloadGo_rerun {α : Type} (remote : Nat → Nat → Option α)
    (proc : MMSDMTable → MMSDMFile → α → α) (table : MMSDMTable) :
    ∀ (files : List MMSDMFile) (fs : List (FsPath × α)),
      (∀ f g, f ∈ files → g ∈ files → cleanPath f = cleanPath g →
        remote f.year f.month = remote g.year g.month) →
      downloadGo remote proc table false files
        (downloadGo remote proc table false files fs).2.1 =
      ((downloadGo remote proc table false files fs).1,
       (downloadGo remote proc table false files fs).2.1,
       files.flatMap (fun g =>
         if (fsLookup (downloadGo remote proc table false files fs).2.1
             (cleanPath g)).isSome = true
         then [Ev.cached] else [Ev.notCached, Ev.notAvailable])) := by
  intro files
  induction files with
  | nil => intro fs _; rfl
  | cons f rest ih =>
      intro fs hrem
      have hrem' : ∀ a b, a ∈ rest → b ∈ rest → cleanPath a = cleanPath b →
          remote a.year a.month = remote b.year b.month :=
        fun a b ha hb => hrem a b (List.mem_cons_of_mem f ha) (List.mem_cons_of_mem f hb)
      cases hc : fsLookup fs (cleanPath f) with
      | some d =>
          have hl2 : fsLookup (downloadGo remote proc table false rest fs).2.1
              (cleanPath f) = some d :=
            downloadGo_preserve_some remote proc table rest fs (cleanPath f) d hc
              (fun g _ => cleanCsvPath_ne_cleanPath g f)
          rw [downloadGo_cons remote proc table false f rest fs,
            download_one_cached remote proc table f false fs d hc]
          dsimp only
          rw [downloadGo_cons remote proc table false f rest
              (downloadGo remote proc table false rest fs).2.1,
            download_one_cached remote proc table f false _ d hl2,
            ih fs hrem']
          simp only [List.flatMap_cons]
          rw [hl2, if_pos (show (some d).isSome = true from rfl)]
      | none =>
          cases hr : remote f.year f.month with
          | none =>
              have hl2 : fsLookup (downloadGo remote proc table false rest fs).2.1
                  (cleanPath f) = none :=
                downloadGo_preserve_unavail remote proc table rest fs (cleanPath f) hc
                  (fun g hg hpg => by
                    rw [hrem g f (List.mem_cons_of_mem f hg) (List.mem_cons_self f rest) hpg]
                    exact hr)
                  (fun g _ => cleanCsvPath_ne_cleanPath g f)
              rw [downloadGo_cons remote proc table false f rest fs,
                download_one_unavail remote proc table f false fs hc hr]
              dsimp only
              rw [downloadGo_cons remote proc table false f rest
                  (downloadGo remote proc table false rest fs).2.1,
                download_one_unavail remote proc table f false _ hl2 hr,
                ih fs hrem']
              simp only [List.flatMap_cons]
              rw [hl2,
                if_neg (show ¬((none : Option α).isSome = true) by simp)]
          | some raw =>
              have hl1 : fsLookup (fsInsert (fsInsert fs (cleanCsvPath f)
                  (proc table f raw)) (cleanPath f) (proc table f raw))
                  (cleanPath f) = some (proc table f raw) := by
                rw [fsLookup_insert, if_pos rfl]
              have hl2 : fsLookup (downloadGo remote proc table false rest
                  (fsInsert (fsInsert fs (cleanCsvPath f) (proc table f raw)) (cleanPath f)
                    (proc table f raw))).2.1 (cleanPath f) = some (proc table f raw) :=
                downloadGo_preserve_some remote proc table rest _ (cleanPath f) _ hl1
                  (fun g _ => cleanCsvPath_ne_cleanPath g f)
              rw [downloadGo_cons remote proc table false f rest fs,
                download_one_fresh remote proc table f fs raw hc hr]
              dsimp only
              rw [downloadGo_cons remote proc table false f rest
                  (downloadGo remote proc table false rest
                    (fsInsert (fsInsert fs (cleanCsvPath f) (proc table f raw)) (cleanPath f)
                      (proc table f raw))).2.1,
                download_one_cached remote proc table f false _ _ hl2,
                ih (fsInsert (fsInsert fs (cleanCsvPath f) (proc table f raw)) (cleanPath f)
                  (proc table f raw)) hrem']
              simp only [List.flatMap_cons]
              rw [hl2, if_pos (show (some (proc table f raw)).isSome = true from rfl)]

lemma find_from_some (l : List MMSDMTable) (name : String) (t : MMSDMTable)
    (h : find_from name l = some t) : t ∈ l ∧ t.name = name := by
  induction l with
  | nil => cases h
  | cons a l ih =>
      unfold find_from at h
      by_cases ha : a.name = name
      · rw [if_pos ha] at h
        obtain rfl := Option.some.inj h
        exact ⟨List.mem_cons_self a l, ha⟩
      · rw [if_neg ha] at h
        obtain ⟨hmem, hname⟩ := ih h
        exact ⟨List.mem_cons_of_mem a hmem, hname⟩

lemma find_ok_props (name : String) (t : MMSDMTable)
    (h : find_mmsdm_table name = Except.ok t) : t ∈ mmsdm_tables ∧ t.name = name := by
  unfold find_mmsdm_table at h
  cases hf : find_from name mmsdm_tables with
  | none => rw [hf] at h; cases h
  | some u =>
      rw [hf] at h
      obtain rfl := Except.ok.inj h
      exact find_from_some mmsdm_tables name u hf

lemma find_roundtrip (name : String) (t : MMSDMTable)
    (h : find_mmsdm_table name = Except.ok t) :
    find_mmsdm_table t.name = Except.ok t := by
  obtain ⟨hmem, _⟩ := find_ok_props name t h
  unfold find_mmsdm_table
  rw [find_from_eq_some mmsdm_tables t.name t mmsdm_names_nodup hmem rfl]

lemma resolved_files_remote_compat {α : Type} (remote : Nat → Nat → Option α)
    (s e : Date) (t : MMSDMTable) (b : FsPath) :
    ∀ f g, f ∈ (monthStarts s e).map (fun p => make_one_mmsdm_file p.1 p.2 t b) →
      g ∈ (monthStarts s e).map (fun p => make_one_mmsdm_file p.1 p.2 t b) →
      cleanPath f = cleanPath g →
      remote f.year f.month = remote g.year g.month := by
  intro f g hf hg hpath
  rw [List.mem_map] at hf hg
  obtain ⟨p, hp, hfp⟩ := hf
  obtain ⟨q, hq, hgq⟩ := hg
  obtain ⟨hp1, hp2⟩ := monthStarts_snd_bounds s e p hp
  obtain ⟨hq1, hq2⟩ := monthStarts_snd_bounds s e q hq
  subst hfp hgq
  rw [cleanPath_make_one, cleanPath_make_one] at hpath
  have hseg := List.append_cancel_left hpath
  simp only [List.cons.injEq, and_true] at hseg
  obtain ⟨hy, hm⟩ := monthSeg_inj p.1 p.2 q.1 q.2 hp2 hq2 hseg.2
  rw [make_one_year, make_one_year, make_one_month, make_one_month, hy, hm]

/-! ## C4: the cache gate -/

/-- C4: the existence of the columnar artifact `clean.parquet` under
`data_directory` is the sole cache-validity test of `download_one_mmsdm`.
When the artifact exists, the persisted value is loaded and returned exactly
as stored, with no download, extraction or re-processing (the result does not
depend on `remote` or `proc`, which are universally quantified) and no state
change; its content is not validated.  When it does not exist, the pipeline
proceeds past the cache check: it consults the remote archive and either
reports unavailability or downloads, processes and persists. -/
theorem download_one_mmsdm_cache_gate {α : Type} (remote : Nat → Nat → Option α)
    (proc : MMSDMTable → MMSDMFile → α → α) (table : MMSDMTable) (f : MMSDMFile)
    (dry_run : Bool) (fs : List (FsPath × α)) :
    (∀ d, fsLookup fs (cleanPath f) = some d →
      download_one_mmsdm remote proc table f dry_run fs = (some d, fs, [Ev.cached])) ∧
    (fsLookup fs (cleanPath f) = none →
      (remote f.year f.month = none →
        download_one_mmsdm remote proc table f dry_run fs =
          (none, fs, [Ev.notCached, Ev.notAvailable])) ∧
      (∀ raw, remote f.year f.month = some raw →
        download_one_mmsdm remote proc table f false fs =
          (some (proc table f raw),
           fsInsert (fsInsert fs (cleanCsvPath f) (proc table f raw)) (cleanPath f)
             (proc table f raw),
           [Ev.notCached, Ev.downloading, Ev.saving]))) :=
  ⟨fun d h => download_one_cached remote proc table f dry_run fs d h,
   fun h1 =>
    ⟨fun h2 => download_one_unavail remote proc table f dry_run fs h1 h2,
     fun raw h2 => download_one_fresh remote proc table f fs raw h1 h2⟩⟩

/-- Witness for C4: a filesystem already holding an artifact for the resolved
2020-01 "dispatch-price" file returns that artifact as-is (a cache hit), for
an arbitrary remote oracle and processing function. -/
theorem download_one_mmsdm_cache_gate_witness :
    download_one_mmsdm (fun _ _ => some 5) (fun _ _ d => d + 1) dispatchPriceTable
        (make_one_mmsdm_file 2020 1 dispatchPriceTable [])
        true [(cleanPath (make_one_mmsdm_file 2020 1 dispatchPriceTable []), 7)] =
      (some 7, [(cleanPath (make_one_mmsdm_file 2020 1 dispatchPriceTable []), 7)],
        [Ev.cached]) :=
  (download_one_mmsdm_cache_gate (fun _ _ => some 5) (fun _ _ d => d + 1)
    dispatchPriceTable (make_one_mmsdm_file 2020 1 dispatchPriceTable []) true
    [(cleanPath (make_one_mmsdm_file 2020 1 dispatchPriceTable []), 7)]).1 7 (by decide)

/-! ## C8: unavailable periods -/

lemma downloadGo_all_unavailable {α : Type} (remote : Nat → Nat → Option α)
    (proc : MMSDMTable → MMSDMFile → α → α) (table : MMSDMTable)
    (hrem : ∀ y m, remote y m = none) :
    ∀ files : List MMSDMFile, ∃ evs,
      downloadGo remote proc table false files [] = ([], [], evs) ∧
      ∀ e ∈ evs, e = Ev.notCached ∨ e = Ev.notAvailable := by
  intro files
  induction files with
  | nil => exact ⟨[], rfl, fun e he => absurd he (List.not_mem_nil e)⟩
  | cons f rest ih =>
      obtain ⟨evs, hgo, hprop⟩ := ih
      refine ⟨Ev.notCached :: Ev.notAvailable :: evs, ?_, ?_⟩
      · rw [downloadGo_cons,
          download_one_unavail remote proc table f false [] rfl (hrem f.year f.month), hgo]
        rfl
      · intro e he
        rcases List.mem_cons.mp he with h | h
        · exact Or.inl h
        rcases List.mem_cons.mp h with h2 | h2
        · exact Or.inr h2
        · exact hprop e h2

/-- C8: when the remote archive for a period does not exist,
`download_one_mmsdm` reports "not available" and returns nothing, without
raising and without creating any cache artifact (the filesystem is returned
unchanged); and when every period of a range is unavailable (starting from an
empty cache), `download_mmsdm` returns an explicitly empty result rather than
failing. -/
theorem download_mmsdm_unavailable_empty {α : Type} (remote : Nat → Nat → Option α)
    (proc : MMSDMTable → MMSDMFile → α → α) (start finish : Date)
    (table_name : String) :
    (∀ (table : MMSDMTable) (f : MMSDMFile) (fs : List (FsPath × α)) (dry : Bool),
      fsLookup fs (cleanPath f) = none → remote f.year f.month = none →
      download_one_mmsdm remote proc table f dry fs =
        (none, fs, [Ev.notCached, Ev.notAvailable])) ∧
    ((∀ y m, remote y m = none) →
      ∀ t, find_mmsdm_table table_name = Except.ok t →
      ∀ base : FsPath, ∃ evs,
        download_mmsdm remote proc start finish table_name base false [] =
          Except.ok ([], [], evs) ∧
        ∀ e ∈ evs, e = Ev.notCached ∨ e = Ev.notAvailable) := by
  constructor
  · exact fun table f fs dry h1 h2 => download_one_unavail remote proc table f dry fs h1 h2
  · intro hrem t hfind base
    obtain ⟨evs, hgo, hprop⟩ := downloadGo_all_unavailable remote proc t hrem
      ((monthStarts start finish).map (fun p => make_one_mmsdm_file p.1 p.2 t base))
    refine ⟨evs, ?_, hprop⟩
    simp only [download_mmsdm, make_many_mmsdm_files, hfind,
      find_roundtrip table_name t hfind, hgo]

/-- Witness for C8: a remote oracle with no archives at all, on the
"trading-price" table over 2030-01..2030-02. -/
theorem download_mmsdm_unavailable_empty_witness :
    download_one_mmsdm (fun _ _ => (none : Option Nat)) (fun _ _ d => d)
        tradingPriceTable (make_one_mmsdm_file 2030 1 tradingPriceTable []) false [] =
      (none, [], [Ev.notCached, Ev.notAvailable]) ∧
    (∃ evs, download_mmsdm (fun _ _ => (none : Option Nat)) (fun _ _ d => d)
        ⟨2030, 1, 1⟩ ⟨2030, 2, 28⟩ "trading-price" [] false [] =
      Except.ok ([], [], evs) ∧
      ∀ e ∈ evs, e = Ev.notCached ∨ e = Ev.notAvailable) :=
  ⟨(download_mmsdm_unavailable_empty (fun _ _ => (none : Option Nat)) (fun _ _ d => d)
      ⟨2030, 1, 1⟩ ⟨2030, 2, 28⟩ "trading-price").1 tradingPriceTable
      (make_one_mmsdm_file 2030 1 tradingPriceTable []) [] false rfl rfl,
   (download_mmsdm_unavailable_empty (fun _ _ => (none : Option Nat)) (fun _ _ d => d)
      ⟨2030, 1, 1⟩ ⟨2030, 2, 28⟩ "trading-price").2 (fun _ _ => rfl) tradingPriceTable
      (by decide) []⟩

/-! ## C3: running the pipeline twice -/

/-- Counterexample to C3 as stated: with a remote oracle holding no archive
for the requested period (a valid, not-yet-published date range), the first
call reports "not cached / not available" and creates no artifact, leaving
the filesystem empty; the second call with the same arguments is therefore
the very same computation, and its event list contains no cache hit — the
period is re-probed (reported not cached, then not available) instead of
being served from cache.  The results of the two runs are still identical. -/
theorem download_mmsdm_second_run_counterexample :
    download_mmsdm (fun _ _ => (none : Option Nat)) (fun _ _ d => d)
        ⟨2030, 3, 1⟩ ⟨2030, 3, 1⟩ "demand" [] false [] =
      Except.ok ([], [], [Ev.notCached, Ev.notAvailable]) ∧
    Ev.cached ∉ [Ev.notCached, Ev.notAvailable] := by
  refine ⟨by decide, by decide⟩

/-- C3 (amended): running `download_mmsdm` twice with the same arguments
(`dry_run` false) yields identical results and an unchanged filesystem
state, and the second run's report is determined period by period: its event
list is exactly the concatenation, over the resolved monthly files in order,
of a cache hit for every period whose columnar artifact exists after the
first run and of a fresh "not cached / not available" probe for every period
without one — and a period without an artifact after the first run is
precisely one whose archive is remotely unavailable.  In particular, when
every period's archive is available the second run reports only cache hits
and performs no download. -/
theorem download_mmsdm_idempotent {α : Type} (remote : Nat → Nat → Option α)
    (proc : MMSDMTable → MMSDMFile → α → α) (start finish : Date) (table_name : String)
    (base : FsPath) (fs0 : List (FsPath × α)) (r1 : List α) (fs1 : List (FsPath × α))
    (ev1 : List Ev)
    (h1 : download_mmsdm remote proc start finish table_name base false fs0 =
      Except.ok (r1, fs1, ev1)) :
    ∃ ev2, download_mmsdm remote proc start finish table_name base false fs1 =
      Except.ok (r1, fs1, ev2) ∧
      (∀ t, find_mmsdm_table table_name = Except.ok t →
        ev2 = ((monthStarts start finish).map
            (fun p => make_one_mmsdm_file p.1 p.2 t base)).flatMap
          (fun f => if (fsLookup fs1 (cleanPath f)).isSome = true
            then [Ev.cached] else [Ev.notCached, Ev.notAvailable]) ∧
        ∀ f ∈ (monthStarts start finish).map (fun p => make_one_mmsdm_file p.1 p.2 t base),
          (fsLookup fs1 (cleanPath f)).isSome = true ∨ remote f.year f.month = none) ∧
      ((∀ y m, (remote y m).isSome) → ∀ e ∈ ev2, e = Ev.cached) := by
  cases hfind : find_mmsdm_table table_name with
  | error e =>
      simp only [download_mmsdm, hfind] at h1
      cases h1
  | ok t =>
      have hfiles : make_many_mmsdm_files start finish t base =
          Except.ok ((monthStarts start finish).map
            (fun p => make_one_mmsdm_file p.1 p.2 t base)) := by
        unfold make_many_mmsdm_files
        rw [find_roundtrip table_name t hfind]
      have h1' : downloadGo remote proc t false
          ((monthStarts start finish).map (fun p => make_one_mmsdm_file p.1 p.2 t base))
          fs0 = (r1, fs1, ev1) := by
        simp only [download_mmsdm, hfind, hfiles] at h1
        exact Except.ok.inj h1
      have hgo2 := downloadGo_rerun remote proc t
        ((monthStarts start finish).map (fun p => make_one_mmsdm_file p.1 p.2 t base)) fs0
        (resolved_files_remote_compat remote start finish t base)
      rw [h1'] at hgo2
      have hpost : ∀ f ∈ (monthStarts start finish).map
          (fun p => make_one_mmsdm_file p.1 p.2 t base),
          (fsLookup fs1 (cleanPath f)).isSome = true ∨ remote f.year f.month = none := by
        intro f hf
        have hp := downloadGo_post_state remote proc t
          ((monthStarts start finish).map (fun p => make_one_mmsdm_file p.1 p.2 t base))
          fs0 f hf
        rw [h1'] at hp
        exact hp
      refine ⟨((monthStarts start finish).map
          (fun p => make_one_mmsdm_file p.1 p.2 t base)).flatMap
        (fun f => if (fsLookup fs1 (cleanPath f)).isSome = true
          then [Ev.cached] else [Ev.notCached, Ev.notAvailable]), ?_, ?_, ?_⟩
      · simp only [download_mmsdm, hfind, hfiles]
        exact congrArg Except.ok hgo2
      · intro t2 hfind2
        obtain rfl := Except.ok.inj hfind2
        exact ⟨rfl, hpost⟩
      · intro htot e he
        obtain ⟨f, hf, hef⟩ := List.mem_flatMap.mp he
        rcases hpost f hf with hs | hn
        · rw [if_pos hs] at hef
          simpa using hef
        · have := htot f.year f.month
          rw [hn] at this
          simp at this

/-- Witness for C3 (amended): a one-month range on "dispatch-price" with the
archive available; the first run downloads and persists, the second run is a
pure cache hit with identical results, and its event list equals the
per-period characterization. -/
theorem download_mmsdm_idempotent_witness :
    download_mmsdm (fun _ _ => some 3) (fun _ _ d => d) ⟨2021, 5, 1⟩ ⟨2021, 5, 1⟩
        "dispatch-price" [] false [] =
      Except.ok ([3],
        [(cleanPath (make_one_mmsdm_file 2021 5 dispatchPriceTable []), 3),
         (cleanCsvPath (make_one_mmsdm_file 2021 5 dispatchPriceTable []), 3)],
        [Ev.notCached, Ev.downloading, Ev.saving]) ∧
    (∃ ev2, download_mmsdm (fun _ _ => some 3) (fun _ _ d => d) ⟨2021, 5, 1⟩ ⟨2021, 5, 1⟩
        "dispatch-price" [] false
        [(cleanPath (make_one_mmsdm_file 2021 5 dispatchPriceTable []), 3),
         (cleanCsvPath (make_one_mmsdm_file 2021 5 dispatchPriceTable []), 3)] =
      Except.ok ([3],
        [(cleanPath (make_one_mmsdm_file 2021 5 dispatchPriceTable []), 3),
         (cleanCsvPath (make_one_mmsdm_file 2021 5 dispatchPriceTable []), 3)], ev2) ∧
      (∀ t, find_mmsdm_table "dispatch-price" = Except.ok t →
        ev2 = ((monthStarts ⟨2021, 5, 1⟩ ⟨2021, 5, 1⟩).map
            (fun p => make_one_mmsdm_file p.1 p.2 t [])).flatMap
          (fun f => if (fsLookup
              [(cleanPath (make_one_mmsdm_file 2021 5 dispatchPriceTable []), 3),
               (cleanCsvPath (make_one_mmsdm_file 2021 5 dispatchPriceTable []), 3)]
              (cleanPath f)).isSome = true
            then [Ev.cached] else [Ev.notCached, Ev.notAvailable]) ∧
        ∀ f ∈ (monthStarts ⟨2021, 5, 1⟩ ⟨2021, 5, 1⟩).map
            (fun p => make_one_mmsdm_file p.1 p.2 t []),
          (fsLookup
              [(cleanPath (make_one_mmsdm_file 2021 5 dispatchPriceTable []), 3),
               (cleanCsvPath (make_one_mmsdm_file 2021 5 dispatchPriceTable []), 3)]
              (cleanPath f)).isSome = true ∨
          ((fun _ _ => some 3 : Nat → Nat → Option Nat) f.year f.month) = none) ∧
      ((∀ y m, ((fun _ _ => some 3 : Nat → Nat → Option Nat) y m).isSome) →
        ∀ e ∈ ev2, e = Ev.cached)) :=
  ⟨by decide,
   download_mmsdm_idempotent (fun _ _ => some 3) (fun _ _ d => d) ⟨2021, 5, 1⟩
     ⟨2021, 5, 1⟩ "dispatch-price" [] [] [3]
     [(cleanPath (make_one_mmsdm_file 2021 5 dispatchPriceTable []), 3),
      (cleanCsvPath (make_one_mmsdm_file 2021 5 dispatchPriceTable []), 3)]
     [Ev.notCached, Ev.downloading, Ev.saving] (by decide)⟩

end NemData
